import Mathlib

/-!
Verification of the codecontext-cli analysis pipeline against its specification.

The TypeScript sources are embedded shallowly: every function below is a direct
translation of the corresponding function in the repository (file and line
references are given in the doc comments).  Strings are manipulated through
their underlying character lists so that every definition evaluates inside the
kernel.  Filesystem reads, the git collaborator and the optional AI
collaborator are passed in as explicit values, mirroring the call structure of
the code.  File modification times (the lastModified field of a FileAnalysis)
are not modelled: no property below depends on time.
-/

set_option maxRecDepth 100000

namespace CodeContext

/-! ## String primitives (JS string/path semantics on character lists) -/

/-- JS String.prototype.includes: needle occurs as a contiguous substring. -/
def listHasSub (hay needle : List Char) : Bool :=
  match hay with
  | [] => needle.isEmpty
  | _ :: t => needle.isPrefixOf hay || listHasSub t needle

/-- JS s.includes(pat). -/
def strContains (s pat : String) : Bool :=
  listHasSub s.data pat.data

/-- JS s.startsWith(pat). -/
def strStarts (s pat : String) : Bool :=
  pat.data.isPrefixOf s.data

/-- JS s.endsWith(pat). -/
def strEnds (s pat : String) : Bool :=
  pat.data.isSuffixOf s.data

/-- JS s.toLowerCase() (ASCII, which covers every string the code compares). -/
def lowerStr (s : String) : String :=
  ⟨s.data.map Char.toLower⟩

/-- JS s.toUpperCase() (ASCII). -/
def upperStr (s : String) : String :=
  ⟨s.data.map Char.toUpper⟩

/-- JS s.slice(1). -/
def strDropOne (s : String) : String :=
  ⟨s.data.drop 1⟩

/-- JS Array.prototype.join(sep). -/
def joinSep (sep : String) : List String → String
  | [] => ""
  | [x] => x
  | x :: xs => x ++ sep ++ joinSep sep xs

/-- JS s.split(sep) for a one-character separator, on character lists. -/
def splitLinesAux (c : Char) (acc : List (List Char)) : List (List Char) :=
  match acc with
  | [] => [[c]]
  | l :: ls => if c = '\n' then [] :: l :: ls else (c :: l) :: ls

/-- JS content.split(newline): the empty string splits to one empty piece. -/
def splitLines (s : String) : List String :=
  (s.data.foldr splitLinesAux [[]]).map fun cs => (⟨cs⟩ : String)

/-! ## Path primitives (node path module, for separator-free or
slash-separated inputs as used by the analyzer) -/

/-- node path.basename(p): the part after the last slash. -/
def basename (p : String) : String :=
  ⟨(p.data.reverse.takeWhile (fun c => c ≠ '/')).reverse⟩

/-- node path.dirname(p): everything before the last slash, with '.' for
slash-free paths and '/' for a file directly under the root. -/
def dirname (p : String) : String :=
  let rest := p.data.reverse.dropWhile (fun c => c ≠ '/')
  match rest with
  | [] => "."
  | _ :: r => if r.isEmpty then "/" else ⟨r.reverse⟩

/-- node path.extname(p): from the last dot of the basename, unless that dot
is its first character or absent. -/
def extname (p : String) : String :=
  let bn := (basename p).data
  let pre := bn.reverse.takeWhile (fun c => c ≠ '.')
  if pre.length = bn.length then ""
  else if bn.length - pre.length - 1 = 0 then ""
  else ⟨'.' :: pre.reverse⟩

/-- node path.join(a, b) for a normalized directory and a bare child name. -/
def pathJoin (a b : String) : String :=
  a ++ "/" ++ b

/-- node path.basename(p, ext): basename with the suffix ext removed when it
is a proper suffix. -/
def basenameStrip (p ext : String) : String :=
  let bn := basename p
  if strEnds bn ext ∧ bn ≠ ext then ⟨bn.data.take (bn.data.length - ext.data.length)⟩
  else bn

/-! ## Data model (src/types.ts)

The TypeScript field names `from` and `to` of Dependency are reserved words in
Lean and appear here as fromRef and toRef; FileAnalysis.lastModified is not
modelled (see the file header). -/

/-- src/types.ts FileAnalysis. -/
structure FileAnalysis where
  path : String
  description : String
  importance : Nat
  primaryFunctions : List String
deriving DecidableEq

/-- src/types.ts Dependency. -/
structure Dependency where
  name : String
  type : String
  fromRef : String
  toRef : String
deriving DecidableEq

/-- src/types.ts Change; date is carried as the raw commit date string. -/
structure Change where
  commit : String
  date : String
  description : String
  impact : String
  files : List String
deriving DecidableEq

/-- src/types.ts DirectoryAnalysis. -/
structure DirectoryAnalysis where
  path : String
  purpose : String
  architecture : String
  keyFiles : List FileAnalysis
  recentChanges : List Change
  improvements : List String
  dependencies : List Dependency
deriving DecidableEq

/-! ## fileUtils (src/utils/fileUtils.ts) -/

/-- fileUtils.ts lines 81-98: the table of well-known file names. -/
def commonFilesTable : List (String × String) :=
  [("package.json", "Node.js project manifest with dependencies and scripts"),
   ("tsconfig.json", "TypeScript compiler configuration"),
   ("webpack.config.js", "Webpack bundler configuration"),
   ("babel.config.js", "Babel transpiler configuration"),
   (".eslintrc.json", "ESLint linting rules"),
   (".gitignore", "Git ignore patterns"),
   ("README.md", "Project documentation and setup instructions"),
   ("Dockerfile", "Docker container configuration"),
   ("docker-compose.yml", "Docker Compose service definitions"),
   (".env", "Environment variables (should be git-ignored)"),
   ("Makefile", "Build automation commands"),
   ("requirements.txt", "Python project dependencies"),
   ("go.mod", "Go module definition"),
   ("Cargo.toml", "Rust project manifest"),
   ("pom.xml", "Maven project configuration"),
   ("build.gradle", "Gradle build configuration")]

/-- fileUtils.ts lines 104-131: the extension table, in insertion order (the
for-of loop takes the first suffix match, so the trailing test entries are
shadowed by the plain .ts/.js entries). -/
def extensionsTable : List (String × String) :=
  [(".ts", "TypeScript source file"),
   (".tsx", "TypeScript React component"),
   (".js", "JavaScript source file"),
   (".jsx", "JavaScript React component"),
   (".py", "Python source file"),
   (".go", "Go source file"),
   (".java", "Java source file"),
   (".cpp", "C++ source file"),
   (".c", "C source file"),
   (".rs", "Rust source file"),
   (".vue", "Vue.js component"),
   (".svelte", "Svelte component"),
   (".css", "Stylesheet"),
   (".scss", "SASS stylesheet"),
   (".html", "HTML template"),
   (".json", "JSON data file"),
   (".yml", "YAML configuration file"),
   (".yaml", "YAML configuration file"),
   (".xml", "XML data file"),
   (".sql", "SQL database script"),
   (".sh", "Shell script"),
   (".md", "Markdown documentation"),
   (".test.ts", "TypeScript test file"),
   (".test.js", "JavaScript test file"),
   (".spec.ts", "TypeScript test specification"),
   (".spec.js", "JavaScript test specification")]

/-- fileUtils.ts getFileDescription (lines 80-140). -/
def getFileDescription (fileName ext : String) : String :=
  match commonFilesTable.find? (fun kv => kv.1 == fileName) with
  | some kv => kv.2
  | none =>
    match extensionsTable.find? (fun kv => strEnds fileName kv.1) with
    | some kv => kv.2
    | none => upperStr (strDropOne ext) ++ " file"

/-- fileUtils.ts lines 143-148: the importance keyword list, verbatim
(note the mixed-case entries). -/
def importantFiles : List String :=
  ["index", "main", "app", "server", "client",
   "package.json", "tsconfig.json", "webpack.config",
   "Dockerfile", "docker-compose", ".env",
   "README", "config", "setup", "install"]

/-- fileUtils.ts calculateImportance (lines 142-165): the keyword loop tests
fileName.toLowerCase().includes(keyword) with the keyword not lowered. -/
def calculateImportance (fileName ext : String) : Nat :=
  if importantFiles.any (fun k => strContains (lowerStr fileName) k) then 10
  else if strContains fileName ".test." || strContains fileName ".spec." then 3
  else if ext = ".ts" ∨ ext = ".tsx" ∨ ext = ".js" ∨ ext = ".jsx" then 7
  else 5

/-- fileUtils.ts lines 170-193: the primary-function keyword table, in
insertion order. -/
def functionMapTable : List (String × List String) :=
  [("index", ["Entry point", "Module exports"]),
   ("app", ["Application initialization", "Main app component"]),
   ("server", ["Server setup", "API endpoints"]),
   ("client", ["Client-side entry", "Browser initialization"]),
   ("config", ["Configuration management", "Environment setup"]),
   ("router", ["Route definitions", "Navigation setup"]),
   ("middleware", ["Request processing", "Authentication/Authorization"]),
   ("controller", ["Request handling", "Business logic coordination"]),
   ("service", ["Business logic", "External integrations"]),
   ("model", ["Data structure", "Database schema"]),
   ("utils", ["Helper functions", "Common utilities"]),
   ("constants", ["Shared constants", "Configuration values"]),
   ("types", ["Type definitions", "Interfaces"]),
   ("hooks", ["Custom React hooks", "State management"]),
   ("store", ["State management", "Data persistence"]),
   ("api", ["API client", "HTTP requests"]),
   ("auth", ["Authentication", "User management"]),
   ("database", ["Database connection", "Query execution"]),
   ("logger", ["Logging functionality", "Error tracking"]),
   ("validator", ["Input validation", "Data sanitization"]),
   ("parser", ["Data parsing", "Format conversion"]),
   ("formatter", ["Data formatting", "Output preparation"])]

/-- fileUtils.ts getPrimaryFunctions (lines 167-206). -/
def getPrimaryFunctions (fileName ext : String) : List String :=
  let baseName := lowerStr (basenameStrip fileName ext)
  match functionMapTable.find? (fun kv => strContains baseName kv.1) with
  | some kv => kv.2
  | none =>
    if strContains fileName ".test." || strContains fileName ".spec." then
      ["Unit tests", "Test cases"]
    else ["General functionality"]

/-- fileUtils.ts getFileInfo (lines 5-17), minus the unmodelled mtime. -/
def getFileInfo (filePath : String) : FileAnalysis :=
  let ext := extname filePath
  let fileName := basename filePath
  { path := filePath
    description := getFileDescription fileName ext
    importance := calculateImportance fileName ext
    primaryFunctions := getPrimaryFunctions fileName ext }

/-- fileUtils.ts lines 23-52: the named-directory purpose table. -/
def dirPurposesTable : List (String × String) :=
  [("src", "Source code directory containing the main application logic"),
   ("components", "React/Vue/Angular components for the user interface"),
   ("utils", "Utility functions and helper modules"),
   ("services", "Service layer for business logic and external integrations"),
   ("models", "Data models and database schemas"),
   ("controllers", "Request handlers and route controllers"),
   ("views", "View templates and UI layouts"),
   ("tests", "Test files and test utilities"),
   ("config", "Configuration files and environment settings"),
   ("scripts", "Build scripts and automation tools"),
   ("docs", "Documentation files and guides"),
   ("public", "Static assets served directly to users"),
   ("assets", "Images, fonts, and other media files"),
   ("styles", "CSS, SCSS, or other styling files"),
   ("api", "API endpoints and route definitions"),
   ("lib", "Third-party libraries or custom library code"),
   ("types", "TypeScript type definitions"),
   ("interfaces", "Interface definitions"),
   ("constants", "Application constants and configuration values"),
   ("middleware", "Express/Koa middleware functions"),
   ("hooks", "React hooks or other framework hooks"),
   ("store", "State management (Redux, Vuex, etc.)"),
   ("actions", "Redux/Flux actions"),
   ("reducers", "Redux reducers"),
   ("mutations", "Vuex mutations"),
   ("queries", "Database queries or GraphQL queries"),
   ("migrations", "Database migration files"),
   ("seeds", "Database seed files")]

/-- fileUtils.ts getDirectoryPurpose (lines 19-78); files is the raw readdir
listing of the directory (the analyzedFiles parameter of the source is
unused there). -/
def getDirectoryPurpose (dirPath : String) (files : List String) : String :=
  let dirName := basename dirPath
  match dirPurposesTable.find? (fun kv => kv.1 == dirName) with
  | some kv => kv.2
  | none =>
    let fileTypes := (files.map extname).filter (fun e => e ≠ "")
    if fileTypes.contains ".tsx" || fileTypes.contains ".jsx" then
      "Contains React components and UI elements"
    else if fileTypes.contains ".vue" then "Contains Vue.js components"
    else if fileTypes.contains ".py" then "Python modules and scripts"
    else if fileTypes.contains ".go" then "Go language source files"
    else "Contains " ++ toString files.length ++ " files related to " ++ dirName

/-! ## Structural source analyzer (src/services/codeParser.ts)

Each regular expression of the source is compiled by hand into an executable
matcher on character lists.  A matcher tries to recognize the pattern at the
current position and returns the captures plus the remaining input; the
global scans below replay the JS exec/g loop: find the leftmost match at or
after the current index, record it, and continue right after it.  Optional
regex groups whose commitment can change the overall outcome are translated
with explicit try-else alternatives; the others are committed greedily, which
is equivalent because the neighbouring character classes are disjoint. -/

/-- JS regex word class (backslash-w). -/
def isWordChar (c : Char) : Bool :=
  c.isAlpha || c.isDigit || c = '_'

/-- JS regex space class (backslash-s), ASCII part. -/
def isSpaceChar (c : Char) : Bool :=
  c = ' ' || c = '\t' || c = '\n' || c = '\r' || c = Char.ofNat 11 || c = Char.ofNat 12

/-- Match a literal, returning the rest. -/
def litM (pat : String) (cs : List Char) : Option (List Char) :=
  if pat.data.isPrefixOf cs then some (cs.drop pat.data.length) else none

/-- Greedy one-or-more characters satisfying p. -/
def chars1M (p : Char → Bool) (cs : List Char) : Option (List Char × List Char) :=
  let w := cs.takeWhile p
  if w.isEmpty then none else some (w, cs.drop w.length)

/-- Greedy zero-or-more characters satisfying p (never fails). -/
def chars0M (p : Char → Bool) (cs : List Char) : List Char × List Char :=
  (cs.takeWhile p, cs.dropWhile p)

/-- Regex backslash-s plus (one or more spaces). -/
def spaces1M (cs : List Char) : Option (List Char) :=
  (chars1M isSpaceChar cs).map (·.2)

/-- Regex backslash-s star. -/
def spaces0M (cs : List Char) : List Char :=
  cs.dropWhile isSpaceChar

/-- Regex backslash-w plus, capturing the word. -/
def wordM (cs : List Char) : Option (List Char × List Char) :=
  chars1M isWordChar cs

/-- JS str.split(sep) for a single-character separator. -/
def splitOnChar (sep : Char) (cs : List Char) : List (List Char) :=
  cs.foldr
    (fun c acc =>
      match acc with
      | [] => [[c]]
      | l :: ls => if c = sep then [] :: l :: ls else (c :: l) :: ls)
    [[]]

/-- JS p.trim() (ASCII whitespace). -/
def trimChars (cs : List Char) : List Char :=
  ((cs.dropWhile isSpaceChar).reverse.dropWhile isSpaceChar).reverse

/-- JS s.replace(pat, rep) for plain strings: first occurrence only. -/
def replaceOnce (cs pat rep : List Char) : List Char :=
  match cs with
  | [] => []
  | c :: t => if pat.isPrefixOf cs ∧ ¬pat.isEmpty then rep ++ cs.drop pat.length
              else c :: replaceOnce t pat rep

/-- The exec/g loop: collect every match left to right, resuming right after
each match (all matchers below consume at least one character) and advancing
one character past positions where the pattern does not match. -/
def scanAllAux (m : List Char → Option (α × List Char)) : Nat → List Char → List α
  | 0, _ => []
  | _, [] => []
  | fuel + 1, c :: t =>
    match m (c :: t) with
    | some (a, rest) =>
      if rest.length < t.length + 1 then a :: scanAllAux m fuel rest
      else a :: scanAllAux m fuel t
    | none => scanAllAux m fuel t

/-- Run a matcher as a global regex scan over the whole input. -/
def scanAll (m : List Char → Option (α × List Char)) (cs : List Char) : List α :=
  scanAllAux m (cs.length + 1) cs

/-- codeParser.ts ImportInfo. -/
structure ImportInfo where
  source : String
  specifiers : List String
  type : String
deriving DecidableEq

/-- codeParser.ts ExportInfo. -/
structure ExportInfo where
  name : String
  type : String
  isDefault : Bool
deriving DecidableEq

/-- codeParser.ts FunctionInfo. -/
structure FunctionInfo where
  name : String
  params : List String
  isAsync : Bool
  isExported : Bool
deriving DecidableEq

/-- codeParser.ts ClassInfo. -/
structure ClassInfo where
  name : String
  methods : List String
  isExported : Bool
deriving DecidableEq

/-- codeParser.ts InterfaceInfo. -/
structure InterfaceInfo where
  name : String
  properties : List String
  isExported : Bool
deriving DecidableEq

/-- codeParser.ts ParsedFile. -/
structure ParsedFile where
  imports : List ImportInfo
  exports : List ExportInfo
  functions : List FunctionInfo
  classes : List ClassInfo
  interfaces : List InterfaceInfo
  mainPurpose : String
deriving DecidableEq

/-- The quote class in the import regexes: either quote character opens or
closes a module reference, exactly as the character class does. -/
def quoteM (cs : List Char) : Option (List Char) :=
  match cs with
  | c :: t => if c = '\'' ∨ c = '"' then some t else none
  | [] => none

/-- The module-reference capture: one or more characters that are not quotes. -/
def sourceM (cs : List Char) : Option (List Char × List Char) :=
  chars1M (fun c => ¬(c = '\'' ∨ c = '"')) cs

/-- The specifier alternation of the import regex (codeParser.ts line 84):
group 1 (star as word), group 2 (bare word) or group 3 (braced name list),
tried in that order; the three branches start with disjoint characters.
Returns the specifier list and the import kind, processed exactly as the
source processes the captures at lines 91-115. -/
def matchImportSpec (cs : List Char) : Option ((List String × String) × List Char) :=
  match cs with
  | '*' :: t => do
    -- group 1 is captured raw and cleaned by replace(star-space-as-space,
    -- empty string) at line 94, which removes only an exactly spaced form
    let r1 ← spaces1M t
    let r2 ← litM "as" r1
    let r3 ← spaces1M r2
    let (_, r4) ← wordM r3
    let raw := cs.take (cs.length - r4.length)
    pure (([(⟨replaceOnce raw "* as ".data []⟩ : String)], "namespace"), r4)
  | '{' :: t => do
    -- group 3 is captured with its braces, cleaned by replace(/[{}]/g),
    -- split on commas, trimmed and filtered at lines 104-108
    let (body, r1) ← chars1M (fun c => c ≠ '}') t
    let r2 ← litM "\x7d" r1
    let cleaned := ('{' :: (body ++ ['}'])).filter (fun c => ¬(c = '{' ∨ c = '}'))
    let names := ((splitOnChar ',' cleaned).map trimChars).filter (fun p => ¬p.isEmpty)
    pure ((names.map fun n => (⟨n⟩ : String), "named"), r2)
  | _ => do
    let (w, r1) ← wordM cs
    pure (([(⟨w⟩ : String)], "default"), r1)

/-- The import regex from the specifier onward: specifier, spaces, from,
spaces, quoted module reference. -/
def matchImportClause (cs : List Char) : Option (ImportInfo × List Char) := do
  let (spec, r4) ← matchImportSpec cs
  let r5 ← spaces1M r4
  let r6 ← litM "from" r5
  let r7 ← spaces1M r6
  let r8 ← quoteM r7
  let (src, r9) ← sourceM r8
  let r10 ← quoteM r9
  pure ({ source := ⟨src⟩, specifiers := spec.1, type := spec.2 }, r10)

/-- codeParser.ts line 84, the full import regex at one position: import,
spaces, an optional type keyword (with regex backtracking: if committing to
it makes the rest fail, it is retried as absent), then the clause. -/
def matchImportAt (cs : List Char) : Option (ImportInfo × List Char) := do
  let r1 ← litM "import" cs
  let r2 ← spaces1M r1
  let withType : Option (ImportInfo × List Char) := do
    let r3 ← litM "type" r2
    let r4 ← spaces1M r3
    matchImportClause r4
  withType <|> matchImportClause r2

/-- codeParser.ts line 85, the default-import regex at one position:
import, spaces, word, spaces, from, spaces, quoted module reference. -/
def matchDefaultImportAt (cs : List Char) : Option ((String × String) × List Char) := do
  let r1 ← litM "import" cs
  let r2 ← spaces1M r1
  let (name, r3) ← wordM r2
  let r4 ← spaces1M r3
  let r5 ← litM "from" r4
  let r6 ← spaces1M r5
  let r7 ← quoteM r6
  let (src, r8) ← sourceM r7
  let r9 ← quoteM r8
  pure (((⟨name⟩ : String), (⟨src⟩ : String)), r9)

/-- codeParser.ts parseImports (lines 82-129): the matches of the first
regex, then every default-import match whose source is not already present
as a default import in the growing list. -/
def parseImports (content : String) : List ImportInfo :=
  let base := scanAll matchImportAt content.data
  (scanAll matchDefaultImportAt content.data).foldl
    (fun acc ns =>
      if acc.any (fun imp => imp.source == ns.2 && imp.type == "default") then acc
      else acc ++ [{ source := ns.2, specifiers := [ns.1], type := "default" }])
    base

/-- The declaration-keyword alternation of the export regex (codeParser.ts
line 133); the keywords are pairwise non-prefix, so at most one literal can
apply at a position. -/
def exportKeywords : List String :=
  ["const", "let", "var", "function", "class", "interface", "type"]

/-- codeParser.ts line 133, the export regex at one position: export,
spaces, optional default keyword, a declaration keyword, spaces, name.
Returns the name together with the full matched text, from which the source
derives isDefault and the declaration kind by substring tests
(lines 138-145). -/
def matchExportAt (cs : List Char) : Option ((String × String) × List Char) := do
  let r1 ← litM "export" cs
  let r2 ← spaces1M r1
  let afterDefault ←
    (do
      let r3 ← litM "default" r2
      spaces1M r3) <|> pure r2
  let kw ← exportKeywords.find? (fun k => k.data.isPrefixOf afterDefault)
  let r4 := afterDefault.drop kw.data.length
  let r5 ← spaces1M r4
  let (name, r6) ← wordM r5
  let full := cs.take (cs.length - r6.length)
  pure ((((⟨name⟩ : String)), (⟨full⟩ : String)), r6)

/-- codeParser.ts lines 139-145: isDefault and the declaration kind are
read off the full matched text by substring containment. -/
def exportKindOf (full : String) : String :=
  if strContains full "function" then "function"
  else if strContains full "class" then "class"
  else if strContains full "interface" then "interface"
  else if strContains full "type" then "type"
  else "variable"

/-- codeParser.ts line 134, the default-export regex at one position. -/
def matchExportDefaultAt (cs : List Char) : Option (String × List Char) := do
  let r1 ← litM "export" cs
  let r2 ← spaces1M r1
  let r3 ← litM "default" r2
  let r4 ← spaces1M r3
  let (name, r5) ← wordM r4
  pure ((⟨name⟩ : String), r5)

/-- codeParser.ts parseExports (lines 131-165): declaration exports first,
then default-export matches not already present with the same name and the
default flag in the growing list. -/
def parseExports (content : String) : List ExportInfo :=
  let base := (scanAll matchExportAt content.data).map fun nf =>
    { name := nf.1, type := exportKindOf nf.2, isDefault := strContains nf.2 "default" }
  (scanAll matchExportDefaultAt content.data).foldl
    (fun acc name =>
      if acc.any (fun exp => exp.name == name && exp.isDefault) then acc
      else acc ++ [{ name := name, type := "variable", isDefault := true }])
    base

/-- codeParser.ts line 178: a declared parameter list is split on commas and
each piece reduced to its first whitespace-delimited token, dropping empty
results. -/
def paramNames (raw : List Char) : List String :=
  (((splitOnChar ',' raw).map fun p => (trimChars p).takeWhile (fun c => ¬isSpaceChar c)).filter
      (fun p => ¬p.isEmpty)).map fun p => (⟨p⟩ : String)

/-- codeParser.ts line 169, the function-declaration regex at one position:
optional export, optional async, the function keyword, spaces, name, optional
spaces, and a parenthesized parameter text.  isAsync and isExported are
substring tests on the full matched text (lines 179-180). -/
def matchFunctionAt (cs : List Char) : Option (FunctionInfo × List Char) := do
  let r1 ← (do
    let a ← litM "export" cs
    spaces1M a) <|> pure cs
  let r2 ← (do
    let a ← litM "async" r1
    spaces1M a) <|> pure r1
  let r3 ← litM "function" r2
  let r4 ← spaces1M r3
  let (name, r5) ← wordM r4
  let r6 := spaces0M r5
  let r7 ← litM "(" r6
  let (params, r8) := chars0M (fun c => c ≠ ')') r7
  let r9 ← litM ")" r8
  let full := cs.take (cs.length - r9.length)
  pure ({ name := ⟨name⟩, params := paramNames params,
          isAsync := strContains (⟨full⟩ : String) "async",
          isExported := strContains (⟨full⟩ : String) "export" }, r9)

/-- codeParser.ts line 170, the arrow-function regex at one position:
optional export, the const keyword, spaces, name, an equals sign with
optional spaces, optional async, and an empty-captured parenthesized list
followed by an arrow.  Parameters are left empty (line 190). -/
def matchArrowAt (cs : List Char) : Option (FunctionInfo × List Char) := do
  let r1 ← (do
    let a ← litM "export" cs
    spaces1M a) <|> pure cs
  let r2 ← litM "const" r1
  let r3 ← spaces1M r2
  let (name, r4) ← wordM r3
  let r5 := spaces0M r4
  let r6 ← litM "=" r5
  let r7 := spaces0M r6
  let r8 ← (do
    let a ← litM "async" r7
    spaces1M a) <|> pure r7
  let r9 ← litM "(" r8
  let (_, r10) := chars0M (fun c => c ≠ ')') r9
  let r11 ← litM ")" r10
  let r12 := spaces0M r11
  let r13 ← litM "=>" r12
  let full := cs.take (cs.length - r13.length)
  pure ({ name := ⟨name⟩, params := [],
          isAsync := strContains (⟨full⟩ : String) "async",
          isExported := strContains (⟨full⟩ : String) "export" }, r13)

/-- codeParser.ts parseFunctions (lines 167-195): all declaration matches,
then all arrow-function matches. -/
def parseFunctions (content : String) : List FunctionInfo :=
  scanAll matchFunctionAt content.data ++ scanAll matchArrowAt content.data

/-- codeParser.ts line 206, the method regex at one position inside a class
body: optional async, name, optional spaces, a parenthesized text, optional
spaces and an opening brace. -/
def matchMethodAt (cs : List Char) : Option (String × List Char) := do
  let r1 ← (do
    let a ← litM "async" cs
    spaces1M a) <|> pure cs
  let (name, r2) ← wordM r1
  let r3 := spaces0M r2
  let r4 ← litM "(" r3
  let (_, r5) := chars0M (fun c => c ≠ ')') r4
  let r6 ← litM ")" r5
  let r7 := spaces0M r6
  let r8 ← litM "\x7b" r7
  pure ((⟨name⟩ : String), r8)

/-- codeParser.ts line 199, the class regex at one position: optional
export, the class keyword, spaces, name, an optional extends clause (with
regex backtracking), optional spaces and a braced body stopping at the first
closing brace.  isExported is a substring test on the full matched text,
body included (line 220). -/
def matchClassAt (cs : List Char) : Option (ClassInfo × List Char) := do
  let r1 ← (do
    let a ← litM "export" cs
    spaces1M a) <|> pure cs
  let r2 ← litM "class" r1
  let r3 ← spaces1M r2
  let (name, r4) ← wordM r3
  let r5 ← (do
    let a ← spaces1M r4
    let b ← litM "extends" a
    let c ← spaces1M b
    let (_, d) ← wordM c
    pure d) <|> pure r4
  let r6 := spaces0M r5
  let r7 ← litM "\x7b" r6
  let (body, r8) ← chars1M (fun c => c ≠ '}') r7
  let r9 ← litM "\x7d" r8
  let full := cs.take (cs.length - r9.length)
  let methods := (scanAll matchMethodAt body).filter (fun m => m ≠ "constructor")
  pure ({ name := ⟨name⟩, methods := methods,
          isExported := strContains (⟨full⟩ : String) "export" }, r9)

/-- codeParser.ts parseClasses (lines 197-223). -/
def parseClasses (content : String) : List ClassInfo :=
  scanAll matchClassAt content.data

/-- codeParser.ts line 234, the property regex at one position inside an
interface body: name, optional spaces, an optional question mark or colon
(with regex backtracking), optional spaces and a colon. -/
def matchPropAt (cs : List Char) : Option (String × List Char) := do
  let (name, r1) ← wordM cs
  let r2 := spaces0M r1
  let r3 ← (do
    let a ← (match r2 with
             | c :: t => if c = '?' ∨ c = ':' then some t else none
             | [] => none)
    let b := spaces0M a
    litM ":" b) <|> litM ":" (spaces0M r2)
  pure ((⟨name⟩ : String), r3)

/-- codeParser.ts line 227, the interface regex at one position: optional
export, the interface keyword, spaces, name, optional spaces, an optional
extends clause of non-brace characters (with regex backtracking), optional
spaces and a braced body stopping at the first closing brace. -/
def matchInterfaceAt (cs : List Char) : Option (InterfaceInfo × List Char) := do
  let r1 ← (do
    let a ← litM "export" cs
    spaces1M a) <|> pure cs
  let r2 ← litM "interface" r1
  let r3 ← spaces1M r2
  let (name, r4) ← wordM r3
  let r5 := spaces0M r4
  let r6 ← (do
    let a ← litM "extends" r5
    let b ← spaces1M a
    let (_, c) ← chars1M (fun c => c ≠ '{') b
    pure c) <|> pure r5
  let r7 := spaces0M r6
  let r8 ← litM "\x7b" r7
  let (body, r9) ← chars1M (fun c => c ≠ '}') r8
  let r10 ← litM "\x7d" r9
  let full := cs.take (cs.length - r10.length)
  pure ({ name := ⟨name⟩, properties := scanAll matchPropAt body,
          isExported := strContains (⟨full⟩ : String) "export" }, r10)

/-- codeParser.ts parseInterfaces (lines 225-249). -/
def parseInterfaces (content : String) : List InterfaceInfo :=
  scanAll matchInterfaceAt content.data

/-- codeParser.ts determinePurpose (lines 251-288), evaluated on the parsed
summary and the basename of the file. -/
def determinePurpose (parsed : ParsedFile) (fileName : String) : String :=
  let baseName := lowerStr (basenameStrip fileName (extname fileName))
  if strContains baseName "test" || strContains baseName "spec" then
    "Test suite for unit testing"
  else if baseName = "index" then
    "Module entry point that exports public API"
  else
    match parsed.classes with
    | mainClass :: _ =>
      "Defines " ++ mainClass.name ++ " class with " ++
        toString mainClass.methods.length ++ " methods"
    | [] =>
      if ¬parsed.interfaces.isEmpty then
        "Type definitions including " ++ joinSep ", " (parsed.interfaces.map (·.name))
      else
        let exportedFuncs := parsed.functions.filter (·.isExported)
        if ¬parsed.functions.isEmpty ∧ ¬exportedFuncs.isEmpty then
          "Provides " ++ joinSep ", " (exportedFuncs.map (·.name)) ++ " functionality"
        else if parsed.imports.any (fun i => strContains i.source "react") then
          "React component"
        else if parsed.imports.any (fun i => strContains i.source "express") then
          "Express server/middleware"
        else "Module implementation"

/-- codeParser.ts lines 56-75: the five extraction passes over one file's
text followed by the purpose heuristic. -/
def parseContentFile (content fileName : String) : ParsedFile :=
  let base : ParsedFile :=
    { imports := parseImports content
      exports := parseExports content
      functions := parseFunctions content
      classes := parseClasses content
      interfaces := parseInterfaces content
      mainPurpose := "" }
  { base with mainPurpose := determinePurpose base fileName }

/-- codeParser.ts line 49: the allow-list of parseable extensions. -/
def allowedExt (ext : String) : Bool :=
  ext = ".ts" || ext = ".tsx" || ext = ".js" || ext = ".jsx"

/-- codeParser.ts parseSourceFile (lines 45-80): null for extensions outside
the allow-list; the file read is passed in explicitly, none standing for an
unreadable file, for which the catch also yields null. -/
def parseSourceFile (filePath : String) (content : Option String) : Option ParsedFile :=
  if ¬allowedExt (extname filePath) then none
  else
    match content with
    | none => none
    | some text => some (parseContentFile text (basename filePath))

/-! ## Git collaborator (src/services/git.ts) -/

/-- One entry of the git log as returned by the version-control
collaborator. -/
structure Commit where
  hash : String
  date : String
  message : String
deriving DecidableEq

/-- One renamed file as reported by git status. -/
structure RenamedFile where
  fromName : String
  toName : String
deriving DecidableEq

/-- The git status summary consumed by getChangedFiles. -/
structure GitStatus where
  modified : List String
  created : List String
  renamed : List RenamedFile
deriving DecidableEq

/-- git.ts getChangedFiles (lines 26-42): modified, then created, then the
destination names of renames. -/
def getChangedFiles (status : GitStatus) : List String :=
  status.modified ++ status.created ++ status.renamed.map (·.toName)

/-- git.ts getRecentCommits (lines 44-63): the log bounded by the limit the
caller passes; the collaborator is modelled as a total log function per
repository root, and the git-unavailable catch as the empty log. -/
def getRecentCommits (gitLog : String → List Commit) (projectPath : String)
    (limit : Nat) : List Commit :=
  (gitLog projectPath).take limit

/-! ## Directory analyzer (src/services/analyzer.ts) -/

/-- One directory child as returned by readdir, with its stat kind and its
readable content (none for an unreadable file and for a subdirectory). -/
structure FsEntry where
  name : String
  isFile : Bool
  content : Option String
deriving DecidableEq

/-- The optional AI collaborator, present exactly when the mode is not quick
and an API key is configured (analyzer.ts lines 33 and 49/124).  fileDesc
gives the one-sentence description per file path, none standing for a failed
call; dir gives the directory-level insights, none standing for a failed
call. -/
structure AIInsightsModel where
  fileDesc : String → Option String
  dir : Option (String × String × List String)

/-- analyzer.ts line 145: the comparator importance-descending; the JS sort
is stable, so it is modelled by a stable insertion sort: an element is
inserted after every earlier element of greater-or-equal importance never
jumping an equal one, which keeps ties in input order. -/
def insertByImportance (x : FileAnalysis) : List FileAnalysis → List FileAnalysis
  | [] => [x]
  | y :: ys =>
    if x.importance < y.importance then y :: insertByImportance x ys
    else x :: y :: ys

/-- The stable importance-descending sort of analyzer.ts line 145. -/
def sortByImportance : List FileAnalysis → List FileAnalysis
  | [] => []
  | x :: xs => insertByImportance x (sortByImportance xs)

/-- analyzer.ts lines 41-65: the per-file step of analyzeDirectory: the
describer baseline, then the parse attempt, then the description override
(AI first when present, with the parsed purpose or the baseline as the
or-else fallback at lines 54 and 57) and the primary-function override when
any function was parsed. -/
def analyzeOneFile (dirPath : String) (ai : Option AIInsightsModel)
    (e : FsEntry) : FileAnalysis :=
  let filePath := pathJoin dirPath e.name
  let fileInfo := getFileInfo filePath
  match parseSourceFile filePath e.content with
  | none => fileInfo
  | some parsed =>
    let desc :=
      match ai with
      | some a =>
        match a.fileDesc filePath with
        | some d => d
        | none => if parsed.mainPurpose ≠ "" then parsed.mainPurpose else fileInfo.description
      | none => if parsed.mainPurpose ≠ "" then parsed.mainPurpose else fileInfo.description
    let fns :=
      if parsed.functions.length > 0 then
        ((parsed.functions.filter (·.isExported)).map
          (fun f => f.name ++ "(" ++ joinSep ", " f.params ++ ")")).take 3
      else fileInfo.primaryFunctions
    { fileInfo with description := desc, primaryFunctions := fns }

/-- analyzer.ts lines 67-84: the dependency edges contributed by one parsed
file: its imports (named specifiers joined, with the or-else falling back to
the module reference when the join is empty), then its exports. -/
def fileDependencies (filePath : String) (parsed : ParsedFile) : List Dependency :=
  parsed.imports.map (fun imp =>
    let joined := joinSep ", " imp.specifiers
    { name := if joined ≠ "" then joined else imp.source
      type := "import", fromRef := imp.source, toRef := filePath }) ++
  parsed.exports.map (fun exp =>
    { name := exp.name, type := "export", fromRef := filePath, toRef := "external" })

/-- analyzer.ts lines 24-26: the child filter of analyzeDirectory: drop
ignored names (the filter is applied to the bare child name) and dotfiles. -/
def keptChild (ignores : String → Bool) (name : String) : Bool :=
  !ignores name && !strStarts name "."

/-- analyzer.ts lines 36-89 restricted to regular files: the File Analysis
list in readdir order. -/
def dirFileAnalyses (dirPath : String) (ignores : String → Bool)
    (ai : Option AIInsightsModel) (entries : List FsEntry) : List FileAnalysis :=
  ((entries.filter (fun e => keptChild ignores e.name)).filter (·.isFile)).map
    (analyzeOneFile dirPath ai)

/-- The dependency accumulation of analyzer.ts lines 67-84 across the same
loop. -/
def dirDependencies (dirPath : String) (ignores : String → Bool)
    (entries : List FsEntry) : List Dependency :=
  ((entries.filter (fun e => keptChild ignores e.name)).filter (·.isFile)).foldr
    (fun e acc =>
      match parseSourceFile (pathJoin dirPath e.name) e.content with
      | none => acc
      | some parsed => fileDependencies (pathJoin dirPath e.name) parsed ++ acc)
    []

/-- analyzer.ts lines 94-101: walk upward from the directory until a .git
child exists or the parent equals the path itself; hasGit is the
pathExists(join(p, .git)) oracle.  The fuel is the path length, which
bounds the number of strict shortenings dirname can make. -/
def findGitRoot (hasGit : String → Bool) : Nat → String → String
  | 0, p => p
  | fuel + 1, p =>
    if hasGit p then p
    else if dirname p = p then p
    else findGitRoot hasGit fuel (dirname p)

/-- analyzer.ts lines 91-117: the recent-change list: empty when no ancestor
holds a .git directory, otherwise the five most recent commits mapped to
Change records with a seven-character commit id and empty file attribution. -/
def dirRecentChanges (hasGit : String → Bool) (gitLog : String → List Commit)
    (dirPath : String) : List Change :=
  let gitRoot := findGitRoot hasGit (dirPath.data.length + 2) dirPath
  if hasGit gitRoot then
    (getRecentCommits gitLog gitRoot 5).map fun c =>
      { commit := ⟨c.hash.data.take 7⟩, date := c.date,
        description := c.message, impact := "Code changes", files := [] }
  else []

/-- analyzer.ts lines 162-169: extension histogram in first-occurrence
order, mirroring JS object key insertion order. -/
def extCounts (paths : List String) : List (String × Nat) :=
  paths.foldl
    (fun acc p =>
      let e := extname p
      if acc.any (fun kv => kv.1 == e) then
        acc.map (fun kv => if kv.1 == e then (kv.1, kv.2 + 1) else kv)
      else acc ++ [(e, 1)])
    []

/-- The stable count-descending sort of analyzer.ts line 169 (same JS sort
law as the importance sort); only the head is consumed. -/
def maxExtEntry : List (String × Nat) → Option (String × Nat)
  | [] => none
  | kv :: rest =>
    match maxExtEntry rest with
    | none => some kv
    | some best => if best.2 > kv.2 then some best else some kv

/-- analyzer.ts lines 176-179: distinct non-relative import sources in first
occurrence order. -/
def externalDepSources (dependencies : List Dependency) : List String :=
  ((dependencies.filter
      (fun d => d.type == "import" && !strStarts d.fromRef ".")).map (·.fromRef)).foldl
    (fun acc v => if acc.contains v then acc else acc ++ [v]) []

/-- analyzer.ts generateArchitectureInsights (lines 158-197). -/
def generateArchitectureInsights (files : List FileAnalysis)
    (dependencies : List Dependency) : String :=
  let ins1 :=
    match maxExtEntry (extCounts (files.map (·.path))) with
    | some kv => ["Primarily " ++ kv.1 ++ " files (" ++ toString kv.2 ++ " files)"]
    | none => []
  let ext := externalDepSources dependencies
  let ins2 :=
    if ext.length > 0 then
      ["Uses " ++ joinSep ", " (ext.take 3) ++ (if ext.length > 3 then " and others" else "")]
    else []
  let ins3 :=
    if files.any (fun f => strContains f.path ".test." || strContains f.path ".spec.") then
      ["Includes test files"]
    else []
  let ins4 :=
    if files.any (fun f => strContains f.path ".d.ts" || strContains (basename f.path) "types") then
      ["Has TypeScript type definitions"]
    else []
  let joined := joinSep ". " (ins1 ++ ins2 ++ ins3 ++ ins4)
  if joined ≠ "" then joined else "Standard module structure"

/-- analyzer.ts generateImprovements (lines 199-225). -/
def generateImprovements (files : List FileAnalysis) : List String :=
  let hasTests := files.any (fun f => strContains f.path ".test." || strContains f.path ".spec.")
  let hasCode := files.any (fun f => allowedExt (extname f.path))
  let imp1 := if hasCode ∧ ¬hasTests then ["Consider adding unit tests"] else []
  let hasReadme := files.any (fun f => lowerStr (basename f.path) == "readme.md")
  let imp2 := if ¬hasReadme ∧ files.length > 5 then ["Add README.md for better documentation"] else []
  let hasJS := files.any (fun f => extname f.path = ".js" ∨ extname f.path = ".jsx")
  let hasTypes := files.any (fun f => strContains f.path ".d.ts")
  let imp3 := if hasJS ∧ ¬hasTypes then ["Consider adding TypeScript or type definitions"] else []
  imp1 ++ imp2 ++ imp3

/-- Modelled from the spec: generateDocumentation
(src/services/documentationGenerator.ts) is not included under src/; per
section 6 of the spec the persisted per-directory document is plain
Markdown containing sections for Purpose, Architecture, Key Files (ranked),
Recent Changes, Improvement Suggestions and Dependency listing, each derived
directly from the Directory Analysis Record fields, rendered top-down in
that order. -/
def generateDocumentation (analysis : DirectoryAnalysis) : String :=
  "# Directory: " ++ analysis.path ++ "\n\n## Purpose\n" ++ analysis.purpose ++
  "\n\n## Architecture\n" ++ analysis.architecture ++
  "\n\n## Key Files\n" ++
  joinSep "" (analysis.keyFiles.map fun f =>
    "- " ++ f.path ++ " (importance " ++ toString f.importance ++ "): " ++
      f.description ++ " [" ++ joinSep ", " f.primaryFunctions ++ "]\n") ++
  "\n## Recent Changes\n" ++
  joinSep "" (analysis.recentChanges.map fun c =>
    "- " ++ c.commit ++ " " ++ c.date ++ ": " ++ c.description ++ " (" ++ c.impact ++ ")\n") ++
  "\n## Improvement Suggestions\n" ++
  joinSep "" (analysis.improvements.map fun i => "- " ++ i ++ "\n") ++
  "\n## Dependencies\n" ++
  joinSep "" (analysis.dependencies.map fun d =>
    "- " ++ d.type ++ " " ++ d.name ++ ": " ++ d.fromRef ++ " -> " ++ d.toRef ++ "\n")

/-- analyzer.ts line 153: fs.writeFile of the document into the directory,
on the directory listing: replace the content of an existing child of that
name, or append a new regular file. -/
def writeEntry (entries : List FsEntry) (name content : String) : List FsEntry :=
  if entries.any (fun e => e.name == name) then
    entries.map (fun e => if e.name == name then { e with isFile := true, content := some content } else e)
  else entries ++ [{ name := name, isFile := true, content := some content }]

/-- analyzer.ts lines 124-139: the AI directory insights, when the
collaborator is present and its call succeeds, override the heuristic
purpose, architecture and improvements through or-else fallbacks that keep
the heuristic value for an empty AI answer; a failed call keeps all three
heuristics. -/
def aiAdjustedInsights (ai : Option AIInsightsModel) (purpose0 architecture0 : String)
    (improvements0 : List String) : String × String × List String :=
  match ai with
  | some a =>
    match a.dir with
    | some ins =>
      (if ins.1 ≠ "" then ins.1 else purpose0,
       if ins.2.1 ≠ "" then ins.2.1 else architecture0,
       if ins.2.2.length > 0 then ins.2.2 else improvements0)
    | none => (purpose0, architecture0, improvements0)
  | none => (purpose0, architecture0, improvements0)

/-- analyzer.ts analyzeDirectory (lines 20-156): the full pipeline over one
directory listing, returning the analysis record, the rendered document and
the directory listing after the claude.md write.  The external
collaborators appear as explicit inputs: ignores for the Ignore Filter
built from config.ignorePatterns, ai for the AI collaborator (already
gated on mode and availability), hasGit and gitLog for version control. -/
def analyzeDirectory (dirPath : String) (ignores : String → Bool)
    (ai : Option AIInsightsModel) (hasGit : String → Bool)
    (gitLog : String → List Commit) (entries : List FsEntry) :
    DirectoryAnalysis × String × List FsEntry :=
  let fileAnalyses := dirFileAnalyses dirPath ignores ai entries
  let allDependencies := dirDependencies dirPath ignores entries
  let recentChanges := dirRecentChanges hasGit gitLog dirPath
  let purpose0 := getDirectoryPurpose dirPath (entries.map (·.name))
  let architecture0 := generateArchitectureInsights fileAnalyses allDependencies
  let improvements0 := generateImprovements fileAnalyses
  let adjusted := aiAdjustedInsights ai purpose0 architecture0 improvements0
  let analysis : DirectoryAnalysis :=
    { path := dirPath
      purpose := adjusted.1
      architecture := adjusted.2.1
      keyFiles := (sortByImportance fileAnalyses).take 10
      recentChanges := recentChanges
      improvements := adjusted.2.2
      dependencies := allDependencies }
  let documentation := generateDocumentation analysis
  (analysis, documentation, writeEntry entries "claude.md" documentation)

/-! ## Change-driven refresh (src/commands/refresh.ts) -/

/-- JS new Set(list) iterated in insertion order: first occurrences kept. -/
def dedupFirst (l : List String) : List String :=
  l.foldl (fun acc x => if acc.contains x then acc else acc ++ [x]) []

/-- refresh.ts lines 77-92, the no-option branch: the directories analyzed
by a change-driven refresh: none when no file changed, otherwise the
distinct parent directories of the changed files in first-report order. -/
def refreshChangedDirs (status : GitStatus) : List String :=
  if (getChangedFiles status).isEmpty then []
  else dedupFirst ((getChangedFiles status).map dirname)

/-! ## Context synthesizer (src/services/contextGenerator.ts) -/

/-- contextGenerator.ts lines 68-73: the summary block one discovered
claude.md contributes: its directory name, the first ten lines of its
content, and the ellipsis marker. -/
def projectEntryBlock (relFile content : String) : String :=
  "\n### " ++ dirname relFile ++ "\n" ++
    joinSep "\n" ((splitLines content).take 10) ++ "\n...\n\n"

/-- contextGenerator.ts generateProjectContext (lines 51-77): the header
(project structure section, whose file-tree rendering the claims do not
touch, passed in as rendered text) followed by the blocks of the first ten
discovered claude.md files, in discovery order. -/
def generateProjectContext (header : String)
    (claudeFiles : List (String × String)) : String :=
  (claudeFiles.take 10).foldl (fun acc fc => acc ++ projectEntryBlock fc.1 fc.2) header

/-! ## Ignore Filter (spec section 4.1)

Modelled from the spec: the Ignore Filter wraps the external ignore npm
package, which is not part of src/; the spec describes it as glob-style
pattern matching of relative paths.  The matcher below interprets the
literal pattern characters together with star (any run of non-separator
characters) and double star (any run of characters), which covers every
pattern the configuration uses. -/
def globMatchAux : Nat → List Char → List Char → Bool
  | 0, _, _ => false
  | _ + 1, [], [] => true
  | _ + 1, [], _ :: _ => false
  | fuel + 1, '*' :: '*' :: ps, cs =>
    globMatchAux fuel ps cs ||
      (match cs with
       | [] => false
       | _ :: t => globMatchAux fuel ('*' :: '*' :: ps) t)
  | fuel + 1, '*' :: ps, cs =>
    globMatchAux fuel ps cs ||
      (match cs with
       | [] => false
       | c :: t => if c = '/' then false else globMatchAux fuel ('*' :: ps) t)
  | _ + 1, _ :: _, [] => false
  | fuel + 1, p :: ps, c :: cs => p = c && globMatchAux fuel ps cs

/-- Every recursive step shrinks the pattern or the input, so this fuel
is enough for the match to be decided. -/
def globMatch (p s : List Char) : Bool :=
  globMatchAux (p.length + s.length + 1) p s

/-- Modelled from the spec: the included/excluded classification of the
Ignore Filter over a pattern list (spec section 4.1). -/
def ignoresMatch (patterns : List String) (p : String) : Bool :=
  patterns.any (fun pat => globMatch pat.data p.data)

/-- init.ts lines 24-31: the default ignore patterns written by the
initialize operation. -/
def defaultIgnorePatterns : List String :=
  ["node_modules/**", "dist/**", "build/**", "*.log", ".git/**", "coverage/**"]

/-- The chain of directories the upward git-root walk of analyzer.ts lines
96-101 can visit: the path, its parent, and so on until dirname is a fixed
point, bounded by the same fuel as the walk. -/
def ancestorChain : Nat → String → List String
  | 0, p => [p]
  | fuel + 1, p =>
    if dirname p = p then [p]
    else p :: ancestorChain fuel (dirname p)

/-- The ancestor directories (the path included) the analyzer can probe for
a .git child. -/
def ancestors (p : String) : List String :=
  ancestorChain (p.data.length + 2) p

/-! ## Concrete sample runs (for the closed instances below) -/

/-- A one-file directory listing without a claude.md. -/
def sampleEntries : List FsEntry :=
  [{ name := "notes.txt", isFile := true, content := some "x" }]

/-- First analysis of the sample directory: no AI collaborator, no version
control, the default ignore patterns. -/
def sampleRun1 : DirectoryAnalysis × String × List FsEntry :=
  analyzeDirectory "proj/stuff" (ignoresMatch defaultIgnorePatterns) none
    (fun _ => false) (fun _ => []) sampleEntries

/-- Re-analysis of the sample directory on the listing the first analysis
left behind. -/
def sampleRun2 : DirectoryAnalysis × String × List FsEntry :=
  analyzeDirectory "proj/stuff" (ignoresMatch defaultIgnorePatterns) none
    (fun _ => false) (fun _ => []) sampleRun1.2.2

/-- Third analysis, on the listing the second left behind. -/
def sampleRun3 : DirectoryAnalysis × String × List FsEntry :=
  analyzeDirectory "proj/stuff" (ignoresMatch defaultIgnorePatterns) none
    (fun _ => false) (fun _ => []) sampleRun2.2.2

/-! ## Helper lemmas -/

theorem mem_insertByImportance {a x : FileAnalysis} {l : List FileAnalysis} :
    a ∈ insertByImportance x l ↔ a = x ∨ a ∈ l := by
  induction l with
  | nil => simp [insertByImportance]
  | cons y ys ih =>
    by_cases h : x.importance < y.importance
    · rw [insertByImportance, if_pos h]
      simp only [List.mem_cons, ih]
      tauto
    · rw [insertByImportance, if_neg h]
      simp only [List.mem_cons]

theorem mem_sortByImportance {a : FileAnalysis} {l : List FileAnalysis} :
    a ∈ sortByImportance l ↔ a ∈ l := by
  induction l with
  | nil => simp [sortByImportance]
  | cons x xs ih =>
    simp only [sortByImportance, mem_insertByImportance, ih, List.mem_cons]

theorem pairwise_insertByImportance {x : FileAnalysis} {l : List FileAnalysis}
    (hl : l.Pairwise (fun a b => b.importance ≤ a.importance)) :
    (insertByImportance x l).Pairwise (fun a b => b.importance ≤ a.importance) := by
  induction l with
  | nil => simp [insertByImportance]
  | cons y ys ih =>
    rcases List.pairwise_cons.mp hl with ⟨hy, hys⟩
    by_cases h : x.importance < y.importance
    · rw [insertByImportance, if_pos h]
      refine List.pairwise_cons.mpr ⟨?_, ih hys⟩
      intro z hz
      rcases mem_insertByImportance.mp hz with rfl | hz
      · exact Nat.le_of_lt h
      · exact hy z hz
    · rw [insertByImportance, if_neg h]
      refine List.pairwise_cons.mpr ⟨?_, hl⟩
      intro z hz
      rcases List.mem_cons.mp hz with rfl | hz
      · exact Nat.le_of_not_lt h
      · exact Nat.le_trans (hy z hz) (Nat.le_of_not_lt h)

theorem pairwise_sortByImportance (l : List FileAnalysis) :
    (sortByImportance l).Pairwise (fun a b => b.importance ≤ a.importance) := by
  induction l with
  | nil => simp [sortByImportance]
  | cons x xs ih => exact pairwise_insertByImportance ih

theorem filter_insertByImportance (k : Nat) (x : FileAnalysis) (l : List FileAnalysis) :
    (insertByImportance x l).filter (fun f => f.importance == k) =
      if x.importance = k then x :: l.filter (fun f => f.importance == k)
      else l.filter (fun f => f.importance == k) := by
  induction l with
  | nil =>
    by_cases hx : x.importance = k <;>
      simp [insertByImportance, List.filter_cons, hx]
  | cons y ys ih =>
    by_cases h : x.importance < y.importance
    · rw [insertByImportance, if_pos h]
      by_cases hx : x.importance = k
      · have hy : ¬y.importance = k := by omega
        simp [List.filter_cons, ih, hx, hy]
      · simp [List.filter_cons, ih, hx]
    · rw [insertByImportance, if_neg h]
      by_cases hx : x.importance = k <;> simp [List.filter_cons, hx]

theorem filter_sortByImportance (k : Nat) (l : List FileAnalysis) :
    (sortByImportance l).filter (fun f => f.importance == k) =
      l.filter (fun f => f.importance == k) := by
  induction l with
  | nil => rfl
  | cons x xs ih =>
    rw [sortByImportance, filter_insertByImportance]
    by_cases hx : x.importance = k <;> simp [List.filter_cons, hx, ih]

theorem filter_take_exists_take {α : Type} (p : α → Bool) (n : Nat) (l : List α) :
    ∃ m, (l.take n).filter p = (l.filter p).take m := by
  induction l generalizing n with
  | nil => exact ⟨0, by simp⟩
  | cons x xs ih =>
    cases n with
    | zero => exact ⟨0, by simp⟩
    | succ n =>
      obtain ⟨m, hm⟩ := ih n
      by_cases hx : p x
      · exact ⟨m + 1, by simp [List.filter_cons, hx, hm]⟩
      · exact ⟨m, by simp [List.filter_cons, hx, hm]⟩

theorem analyzeOneFile_path (dirPath : String) (ai : Option AIInsightsModel)
    (e : FsEntry) : (analyzeOneFile dirPath ai e).path = pathJoin dirPath e.name := by
  rw [analyzeOneFile]
  cases parseSourceFile (pathJoin dirPath e.name) e.content <;> rfl

theorem mem_dedupAux (l : List String) (acc : List String) (x : String) :
    x ∈ l.foldl (fun a y => if a.contains y then a else a ++ [y]) acc ↔ x ∈ acc ∨ x ∈ l := by
  induction l generalizing acc with
  | nil => simp
  | cons y ys ih =>
    simp only [List.foldl_cons, ih, List.mem_cons]
    by_cases hy : acc.contains y
    · have : y ∈ acc := by simpa using hy
      simp only [if_pos hy]
      constructor
      · tauto
      · rintro (h | rfl | h) <;> tauto
    · simp only [if_neg hy, List.mem_append, List.mem_singleton]
      tauto

theorem nodup_dedupAux (l : List String) (acc : List String) (hacc : acc.Nodup) :
    (l.foldl (fun a y => if a.contains y then a else a ++ [y]) acc).Nodup := by
  induction l generalizing acc with
  | nil => simpa
  | cons y ys ih =>
    simp only [List.foldl_cons]
    by_cases hy : acc.contains y
    · rw [if_pos hy]; exact ih acc hacc
    · rw [if_neg hy]
      refine ih _ ?_
      have hy' : y ∉ acc := by simpa using hy
      simpa [List.nodup_append] using ⟨hacc, hy'⟩

theorem mem_dedupFirst {x : String} {l : List String} :
    x ∈ dedupFirst l ↔ x ∈ l := by
  rw [dedupFirst, mem_dedupAux]
  simp

theorem nodup_dedupFirst (l : List String) : (dedupFirst l).Nodup :=
  nodup_dedupAux l [] List.nodup_nil

theorem strAppend_data (a b : String) : (a ++ b).data = a.data ++ b.data := rfl

theorem strAppend_assoc (a b c : String) : a ++ b ++ c = a ++ (b ++ c) := by
  apply String.ext
  simp [strAppend_data, List.append_assoc]

theorem strAppend_empty (a : String) : a ++ "" = a := by
  apply String.ext
  simp [strAppend_data]

theorem foldl_projectBlocks (files : List (String × String)) (acc : String) :
    files.foldl (fun a fc => a ++ projectEntryBlock fc.1 fc.2) acc =
      acc ++ joinSep "" (files.map fun fc => projectEntryBlock fc.1 fc.2) := by
  induction files generalizing acc with
  | nil => simp [joinSep, strAppend_empty]
  | cons f fs ih =>
    simp only [List.foldl_cons, List.map_cons, ih]
    cases fs with
    | nil => simp [joinSep, strAppend_empty]
    | cons g gs =>
      simp only [joinSep, List.map_cons]
      rw [strAppend_empty, strAppend_assoc]

theorem writeEntry_of_absent {l : List FsEntry} {n c : String}
    (h : ∀ e ∈ l, e.name ≠ n) :
    writeEntry l n c = l ++ [{ name := n, isFile := true, content := some c }] := by
  rw [writeEntry, if_neg]
  simp only [List.any_eq_true, not_exists, not_and]
  intro e he
  simpa using h e he

theorem writeEntry_of_steady {l : List FsEntry} {n c : String}
    (hex : ∃ e ∈ l, e.name = n)
    (hall : ∀ e ∈ l, e.name = n → e = { name := n, isFile := true, content := some c }) :
    writeEntry l n c = l := by
  rw [writeEntry, if_pos]
  · conv_rhs => rw [← List.map_id l]
    apply List.map_congr_left
    intro e he
    by_cases hn : e.name = n
    · have := hall e he hn
      simp [hn, this]
    · simp [hn]
  · obtain ⟨e, he, hn⟩ := hex
    exact List.any_eq_true.mpr ⟨e, he, by simp [hn]⟩

theorem findGitRoot_mem_chain (hasGit : String → Bool) (fuel : Nat) (p : String) :
    findGitRoot hasGit fuel p ∈ ancestorChain fuel p := by
  induction fuel generalizing p with
  | zero => simp [findGitRoot, ancestorChain]
  | succ fuel ih =>
    rw [findGitRoot, ancestorChain]
    by_cases hg : hasGit p
    · rw [if_pos hg]
      by_cases hd : dirname p = p
      · simp [hd]
      · simp [hd]
    · rw [if_neg hg]
      by_cases hd : dirname p = p
      · simp [hd]
      · simp only [if_neg hd, List.mem_cons]
        exact Or.inr (ih (dirname p))

/-! ## Claim theorems -/

/-- C1: for every directory analyzed by analyzeDirectory, the returned
record's keyFiles sequence is sorted by importance descending, keeps ties in
input order (its restriction to any importance value is a prefix of the
file-analysis list's restriction), has length at most 10, and contains no
file whose name the configured Ignore Filter rejects. -/
theorem keyFiles_sorted_bounded_unignored
    (dirPath : String) (ignores : String → Bool) (ai : Option AIInsightsModel)
    (hasGit : String → Bool) (gitLog : String → List Commit) (entries : List FsEntry) :
    ((analyzeDirectory dirPath ignores ai hasGit gitLog entries).1.keyFiles.Pairwise
        (fun a b => b.importance ≤ a.importance)) ∧
    (analyzeDirectory dirPath ignores ai hasGit gitLog entries).1.keyFiles.length ≤ 10 ∧
    (∀ k : Nat, ∃ m : Nat,
      (analyzeDirectory dirPath ignores ai hasGit gitLog entries).1.keyFiles.filter
          (fun f => f.importance == k) =
        ((dirFileAnalyses dirPath ignores ai entries).filter
            (fun f => f.importance == k)).take m) ∧
    (∀ fa ∈ (analyzeDirectory dirPath ignores ai hasGit gitLog entries).1.keyFiles,
      ∃ e ∈ entries, ignores e.name = false ∧ fa.path = pathJoin dirPath e.name) := by
  have hkf : (analyzeDirectory dirPath ignores ai hasGit gitLog entries).1.keyFiles =
      (sortByImportance (dirFileAnalyses dirPath ignores ai entries)).take 10 := rfl
  refine ⟨?_, ?_, ?_, ?_⟩
  · rw [hkf]
    exact List.Pairwise.sublist (List.take_sublist 10 _) (pairwise_sortByImportance _)
  · rw [hkf]
    simp [List.length_take]
  · intro k
    obtain ⟨m, hm⟩ :=
      filter_take_exists_take (fun f => f.importance == k) 10
        (sortByImportance (dirFileAnalyses dirPath ignores ai entries))
    refine ⟨m, ?_⟩
    rw [hkf, hm, filter_sortByImportance]
  · intro fa hfa
    rw [hkf] at hfa
    have hsort : fa ∈ sortByImportance (dirFileAnalyses dirPath ignores ai entries) :=
      (List.take_sublist 10 _).subset hfa
    have hmem : fa ∈ dirFileAnalyses dirPath ignores ai entries :=
      mem_sortByImportance.mp hsort
    rw [dirFileAnalyses] at hmem
    obtain ⟨e, he, hfe⟩ := List.mem_map.mp hmem
    obtain ⟨he2, _⟩ := List.mem_filter.mp he
    obtain ⟨he3, hkept⟩ := List.mem_filter.mp he2
    refine ⟨e, he3, ?_, ?_⟩
    · simp only [keptChild, Bool.and_eq_true, Bool.not_eq_true'] at hkept
      exact hkept.1
    · rw [← hfe, analyzeOneFile_path]

/-- C2 counterexample: the claim as stated is false.  The sample directory
is analyzed once and then left untouched, so its contents have not changed
since that analysis; yet the re-analysis persists a different document,
because the previous analysis itself added claude.md to the listing, which
changes the file count in the purpose sentence and adds a key file. -/
theorem reanalysis_changes_document_counterexample :
    sampleRun2.2.1 ≠ sampleRun1.2.1 := by decide

/-- C2 (amended): re-analyzing with no AI collaborator is byte-identical
provided the directory listing the second analysis reads equals the one the
first read; since the analysis ends by writing claude.md, this holds exactly
when claude.md with that same rendered content was already a child before
the previous analysis, making the write a no-op.  When claude.md was absent
beforehand, the first re-analysis reads a changed listing and its document
can differ (see the counterexample). -/
theorem reanalysis_byte_identical_of_steady
    (dirPath : String) (ignores : String → Bool) (hasGit : String → Bool)
    (gitLog : String → List Commit) (entries : List FsEntry)
    (hex : ∃ e ∈ entries, e.name = "claude.md")
    (hall : ∀ e ∈ entries, e.name = "claude.md" →
      e = { name := "claude.md", isFile := true,
            content := some (analyzeDirectory dirPath ignores none hasGit gitLog entries).2.1 }) :
    (analyzeDirectory dirPath ignores none hasGit gitLog
        (analyzeDirectory dirPath ignores none hasGit gitLog entries).2.2).2.1 =
      (analyzeDirectory dirPath ignores none hasGit gitLog entries).2.1 ∧
    (analyzeDirectory dirPath ignores none hasGit gitLog entries).2.2 = entries := by
  have hst : (analyzeDirectory dirPath ignores none hasGit gitLog entries).2.2 = entries :=
    writeEntry_of_steady hex hall
  exact ⟨by rw [hst], hst⟩

/-- C2 witness: the listing after two analyses of the sample directory is
steady: it contains claude.md with exactly the document a further analysis
renders, and re-analyzing it changes neither the document nor the
listing. -/
theorem reanalysis_byte_identical_witness :
    ((∃ e ∈ sampleRun2.2.2, e.name = "claude.md") ∧
      (∀ e ∈ sampleRun2.2.2, e.name = "claude.md" →
        e = { name := "claude.md", isFile := true,
              content := some (analyzeDirectory "proj/stuff"
                (ignoresMatch defaultIgnorePatterns) none (fun _ => false) (fun _ => [])
                sampleRun2.2.2).2.1 })) ∧
    ((analyzeDirectory "proj/stuff" (ignoresMatch defaultIgnorePatterns) none
        (fun _ => false) (fun _ => [])
        (analyzeDirectory "proj/stuff" (ignoresMatch defaultIgnorePatterns) none
          (fun _ => false) (fun _ => []) sampleRun2.2.2).2.2).2.1 =
      (analyzeDirectory "proj/stuff" (ignoresMatch defaultIgnorePatterns) none
        (fun _ => false) (fun _ => []) sampleRun2.2.2).2.1 ∧
    (analyzeDirectory "proj/stuff" (ignoresMatch defaultIgnorePatterns) none
        (fun _ => false) (fun _ => []) sampleRun2.2.2).2.2 = sampleRun2.2.2) :=
  ⟨⟨by decide, by decide⟩,
    reanalysis_byte_identical_of_steady "proj/stuff" (ignoresMatch defaultIgnorePatterns)
      (fun _ => false) (fun _ => []) sampleRun2.2.2 (by decide) (by decide)⟩

/-- C3 counterexample: the claim as stated is false.  For a parsed file
containing one function that is not exported, no exported functions are
present, yet the describer's primary-function guess is not retained: the
override branch fires on the total function count and replaces the guess
with the empty sequence. -/
theorem primary_functions_not_retained_counterexample :
    (analyzeOneFile "d" none
        { name := "a.ts", isFile := true,
          content := some "function helper(a, b) \x7b\x7d" }).primaryFunctions = [] ∧
    (getFileInfo (pathJoin "d" "a.ts")).primaryFunctions = ["General functionality"] := by
  decide

/-- C3 (amended): for every successfully parsed file, when the parse found
at least one function, declared or arrow, exported or not, the File
Analysis's primary functions become the first three exported functions
rendered as name(params), which is the empty sequence when none is
exported; only when the parse found no function at all is the describer's
guess retained unchanged. -/
theorem exported_functions_override_guess
    (dirPath : String) (ai : Option AIInsightsModel) (e : FsEntry) (p : ParsedFile)
    (h : parseSourceFile (pathJoin dirPath e.name) e.content = some p) :
    (p.functions ≠ [] →
      (analyzeOneFile dirPath ai e).primaryFunctions =
        ((p.functions.filter (·.isExported)).map
          (fun f => f.name ++ "(" ++ joinSep ", " f.params ++ ")")).take 3) ∧
    (p.functions = [] →
      (analyzeOneFile dirPath ai e).primaryFunctions =
        (getFileInfo (pathJoin dirPath e.name)).primaryFunctions) := by
  constructor
  · intro hf
    have hl : p.functions.length > 0 := List.length_pos.mpr hf
    simp [analyzeOneFile, h, hl]
  · intro hf
    simp [analyzeOneFile, h, hf]

/-- C3 witness: a file with a single exported function g(y): the parse
succeeds with a nonempty function list, and the primary functions become
exactly its rendering. -/
theorem exported_functions_override_guess_witness :
    (parseSourceFile (pathJoin "d" "a.ts") (some "export function g(y) \x7b\x7d") =
      some { imports := [], exports := [⟨"g", "function", false⟩],
             functions := [⟨"g", ["y"], false, true⟩], classes := [], interfaces := [],
             mainPurpose := "Provides g functionality" }) ∧
    (analyzeOneFile "d" none
        { name := "a.ts", isFile := true,
          content := some "export function g(y) \x7b\x7d" }).primaryFunctions = ["g(y)"] :=
  ⟨by decide, by
    have h :=
      (exported_functions_override_guess "d" none
          { name := "a.ts", isFile := true, content := some "export function g(y) \x7b\x7d" }
          { imports := [], exports := [⟨"g", "function", false⟩],
            functions := [⟨"g", ["y"], false, true⟩], classes := [], interfaces := [],
            mainPurpose := "Provides g functionality" }
          (by decide)).1 (by decide)
    rw [h]
    decide⟩

/-- C4: for every file with an allow-listed extension whose text yields no
recognizable import, export, function, class or interface declaration (no
match of the corresponding extraction scans), and whose lowercased stem is
not index and contains neither test nor spec, parseSourceFile returns a
Parsed File with all five sequence fields empty and the generic Module
implementation fallback as its main purpose. -/
theorem parse_no_declarations_fallback
    (filePath content : String)
    (hext : allowedExt (extname filePath) = true)
    (h1 : parseImports content = [])
    (h2 : parseExports content = [])
    (h3 : parseFunctions content = [])
    (h4 : parseClasses content = [])
    (h5 : parseInterfaces content = [])
    (ht : strContains (lowerStr (basenameStrip (basename filePath)
      (extname (basename filePath)))) "test" = false)
    (hs : strContains (lowerStr (basenameStrip (basename filePath)
      (extname (basename filePath)))) "spec" = false)
    (hi : lowerStr (basenameStrip (basename filePath) (extname (basename filePath))) ≠ "index") :
    parseSourceFile filePath (some content) =
      some { imports := [], exports := [], functions := [], classes := [],
             interfaces := [], mainPurpose := "Module implementation" } := by
  rw [parseSourceFile, if_neg (by simp [hext])]
  simp [parseContentFile, h1, h2, h3, h4, h5, determinePurpose, ht, hs, hi]

/-- C4 witness: a .ts file holding only a plain variable statement has no
recognizable declaration, a stem free of the special patterns, and parses to
the all-empty summary with the generic fallback purpose. -/
theorem parse_no_declarations_fallback_witness :
    (allowedExt (extname "a/foo.ts") = true ∧
      parseImports "const x = 1;\n" = [] ∧
      parseExports "const x = 1;\n" = [] ∧
      parseFunctions "const x = 1;\n" = [] ∧
      parseClasses "const x = 1;\n" = [] ∧
      parseInterfaces "const x = 1;\n" = [] ∧
      strContains (lowerStr (basenameStrip (basename "a/foo.ts")
        (extname (basename "a/foo.ts")))) "test" = false ∧
      strContains (lowerStr (basenameStrip (basename "a/foo.ts")
        (extname (basename "a/foo.ts")))) "spec" = false ∧
      lowerStr (basenameStrip (basename "a/foo.ts") (extname (basename "a/foo.ts"))) ≠ "index") ∧
    parseSourceFile "a/foo.ts" (some "const x = 1;\n") =
      some { imports := [], exports := [], functions := [], classes := [],
             interfaces := [], mainPurpose := "Module implementation" } :=
  ⟨by decide,
    parse_no_declarations_fallback "a/foo.ts" "const x = 1;\n" (by decide) (by decide)
      (by decide) (by decide) (by decide) (by decide) (by decide) (by decide) (by decide)⟩

/-- C5: the File Describer's importance score.  The test/extension/default
tiers and the keyword priority hold, but the keyword tier is not the
case-insensitive match the claim states: the filename is lowercased while
the keywords README and Dockerfile stay uppercase, so they can never match;
README.md falls through to the default tier and scores 5, not 10, while the
keyword-over-test priority does hold (index.test.ts scores 10). -/
theorem importance_readme_scores_five :
    calculateImportance "README.md" ".md" = 5 ∧
    calculateImportance "Dockerfile" "" = 5 ∧
    calculateImportance "index.test.ts" ".ts" = 10 ∧
    calculateImportance "foo.test.ts" ".ts" = 3 ∧
    calculateImportance "util.ts" ".ts" = 7 ∧
    calculateImportance "notes.txt" ".txt" = 5 := by
  decide

/-- C6: the change-driven refresh plan is exactly the set of distinct parent
directories of the files the version-control collaborator reports as
modified, created or renamed (destination name): membership is equivalent to
being some changed file's parent, the plan has no duplicates, and an empty
change report yields an empty plan with no directory re-analyzed. -/
theorem refresh_plan_is_parent_dirs (status : GitStatus) :
    (∀ d, d ∈ refreshChangedDirs status ↔ ∃ f ∈ getChangedFiles status, dirname f = d) ∧
    (refreshChangedDirs status).Nodup ∧
    (getChangedFiles status = [] → refreshChangedDirs status = []) := by
  refine ⟨?_, ?_, ?_⟩
  · intro d
    rw [refreshChangedDirs]
    by_cases h : (getChangedFiles status).isEmpty
    · have hnil : getChangedFiles status = [] := by simpa using h
      rw [if_pos h]
      simp [hnil]
    · rw [if_neg h, mem_dedupFirst, List.mem_map]
  · rw [refreshChangedDirs]
    by_cases h : (getChangedFiles status).isEmpty
    · rw [if_pos h]; exact List.nodup_nil
    · rw [if_neg h]; exact nodup_dedupFirst _
  · intro h
    rw [refreshChangedDirs, if_pos (by simp [h])]

/-- C6 witness: a concrete status with two files changed in directory a, one
created in b and one renamed into c plans exactly the directories a, b, c,
and an empty status plans nothing. -/
theorem refresh_plan_witness :
    refreshChangedDirs { modified := ["a/x.ts", "a/y.ts"], created := ["b/z.ts"],
                         renamed := [{ fromName := "old.ts", toName := "c/w.ts" }] } =
      ["a", "b", "c"] ∧
    ("a" ∈ refreshChangedDirs { modified := ["a/x.ts", "a/y.ts"], created := ["b/z.ts"],
                                renamed := [{ fromName := "old.ts", toName := "c/w.ts" }] }) ∧
    refreshChangedDirs { modified := [], created := [], renamed := [] } = [] :=
  ⟨by decide,
    (refresh_plan_is_parent_dirs _).1 "a" |>.mpr ⟨"a/x.ts", by decide, by decide⟩,
    (refresh_plan_is_parent_dirs _).2.2 (by decide)⟩

/-- C7: for every file whose extension is outside the allow-list, and for
every allow-listed file whose read fails, parseSourceFile returns none
rather than a failure, and the per-directory analysis still produces one
File Analysis for every kept regular file, parse failures included. -/
theorem unparseable_file_yields_none
    (filePath : String) (content : Option String) (dirPath : String)
    (ignores : String → Bool) (ai : Option AIInsightsModel) (entries : List FsEntry)
    (h : allowedExt (extname filePath) = false ∨ content = none) :
    parseSourceFile filePath content = none ∧
    (dirFileAnalyses dirPath ignores ai entries).length =
      ((entries.filter (fun e => keptChild ignores e.name)).filter (·.isFile)).length := by
  constructor
  · rcases h with h | rfl
    · rw [parseSourceFile.eq_def, if_pos (by simp [h])]
    · rw [parseSourceFile.eq_def]
      split
      · rfl
      · rfl
  · rw [dirFileAnalyses, List.length_map]

/-- C7 witness: a Python file is not parsed though readable, and a directory
with one unreadable .ts child and one readable .ts child still yields two
File Analyses. -/
theorem unparseable_file_yields_none_witness :
    (allowedExt (extname "a/x.py") = false ∨ (some "print(1)" : Option String) = none) ∧
    (parseSourceFile "a/x.py" (some "print(1)") = none ∧
      (dirFileAnalyses "a" (fun _ => false) none
          [{ name := "u.ts", isFile := true, content := none },
           { name := "v.ts", isFile := true, content := some "export function f(x) \x7b\x7d" }]).length =
        (([({ name := "u.ts", isFile := true, content := none } : FsEntry),
           { name := "v.ts", isFile := true, content := some "export function f(x) \x7b\x7d" }].filter
            (fun e => keptChild (fun _ => false) e.name)).filter (·.isFile)).length) :=
  ⟨Or.inl (by decide),
    unparseable_file_yields_none "a/x.py" (some "print(1)") "a" (fun _ => false) none
      [{ name := "u.ts", isFile := true, content := none },
       { name := "v.ts", isFile := true, content := some "export function f(x) \x7b\x7d" }]
      (Or.inl (by decide))⟩

/-- C8: when no directory at or above the analyzed one has a .git child,
the analysis record's recentChanges is the empty sequence (the pipeline
total function simply takes the empty branch, no failure involved). -/
theorem no_git_root_empty_changes
    (dirPath : String) (ignores : String → Bool) (ai : Option AIInsightsModel)
    (hasGit : String → Bool) (gitLog : String → List Commit) (entries : List FsEntry)
    (h : ∀ a ∈ ancestors dirPath, hasGit a = false) :
    (analyzeDirectory dirPath ignores ai hasGit gitLog entries).1.recentChanges = [] := by
  show dirRecentChanges hasGit gitLog dirPath = []
  rw [dirRecentChanges]
  have hroot := findGitRoot_mem_chain hasGit (dirPath.data.length + 2) dirPath
  have hfalse : hasGit (findGitRoot hasGit (dirPath.data.length + 2) dirPath) = false :=
    h _ hroot
  rw [if_neg (by rw [hfalse]; exact Bool.false_ne_true)]

/-- C8 witness: a two-level path with no .git anywhere above it and a
non-empty git log available elsewhere still yields an empty recentChanges. -/
theorem no_git_root_empty_changes_witness :
    (∀ a ∈ ancestors "a/b", (fun _ => false : String → Bool) a = false) ∧
    (analyzeDirectory "a/b" (fun _ => false) none (fun _ => false)
        (fun _ => [{ hash := "0123456789", date := "2024-01-01", message := "msg" }])
        [{ name := "x.ts", isFile := true, content := some "" }]).1.recentChanges = [] :=
  ⟨by decide,
    no_git_root_empty_changes "a/b" (fun _ => false) none (fun _ => false)
      (fun _ => [{ hash := "0123456789", date := "2024-01-01", message := "msg" }])
      [{ name := "x.ts", isFile := true, content := some "" }] (by decide)⟩

/-- C9: the project context view appends one block per discovered claude.md
for at most ten of them: files beyond the first ten contribute nothing (the
output equals the output on the truncated list), and the appended text is
exactly, per document, its directory name followed by the first ten lines
and the ellipsis marker. -/
theorem project_context_first_ten
    (header : String) (claudeFiles : List (String × String)) :
    generateProjectContext header claudeFiles =
      generateProjectContext header (claudeFiles.take 10) ∧
    generateProjectContext header claudeFiles =
      header ++ joinSep "" ((claudeFiles.take 10).map fun fc =>
        "\n### " ++ dirname fc.1 ++ "\n" ++
          joinSep "\n" ((splitLines fc.2).take 10) ++ "\n...\n\n") := by
  constructor
  · simp [generateProjectContext, List.take_take]
  · rw [generateProjectContext, foldl_projectBlocks]
    rfl

/-- C9 witness: with twelve one-line documents discovered, the last two
contribute nothing, and a single document renders as its directory plus its
(fewer than ten) lines and the ellipsis. -/
theorem project_context_first_ten_witness :
    generateProjectContext "H"
        [("d01/claude.md", "a"), ("d02/claude.md", "a"), ("d03/claude.md", "a"),
         ("d04/claude.md", "a"), ("d05/claude.md", "a"), ("d06/claude.md", "a"),
         ("d07/claude.md", "a"), ("d08/claude.md", "a"), ("d09/claude.md", "a"),
         ("d10/claude.md", "a"), ("d11/claude.md", "b"), ("d12/claude.md", "c")] =
      generateProjectContext "H"
        [("d01/claude.md", "a"), ("d02/claude.md", "a"), ("d03/claude.md", "a"),
         ("d04/claude.md", "a"), ("d05/claude.md", "a"), ("d06/claude.md", "a"),
         ("d07/claude.md", "a"), ("d08/claude.md", "a"), ("d09/claude.md", "a"),
         ("d10/claude.md", "a")] ∧
    generateProjectContext "H" [("a/claude.md", "l1\nl2")] = "H\n### a\nl1\nl2\n...\n\n" := by
  constructor
  · have h := (project_context_first_ten "H"
      [("d01/claude.md", "a"), ("d02/claude.md", "a"), ("d03/claude.md", "a"),
       ("d04/claude.md", "a"), ("d05/claude.md", "a"), ("d06/claude.md", "a"),
       ("d07/claude.md", "a"), ("d08/claude.md", "a"), ("d09/claude.md", "a"),
       ("d10/claude.md", "a"), ("d11/claude.md", "b"), ("d12/claude.md", "c")]).1
    rw [h]
    decide
  · decide

/-- C10: with the default ignore patterns, the only listing change an
analysis makes is appending claude.md (holding the rendered document)
inside the analyzed directory when absent before; the new child is neither a
dotfile nor ignored, so a subsequent analysis of the same directory takes it
up: its File Analysis joins the ranking input as one more element, the raw
listing grows by one, and the purpose heuristic now counts claude.md among
the files. -/
theorem claudemd_frame_and_participation
    (dirPath : String) (ai : Option AIInsightsModel) (hasGit : String → Bool)
    (gitLog : String → List Commit) (entries : List FsEntry)
    (h : ∀ e ∈ entries, e.name ≠ "claude.md") :
    (analyzeDirectory dirPath (ignoresMatch defaultIgnorePatterns) ai hasGit gitLog entries).2.2 =
      entries ++ [{ name := "claude.md", isFile := true,
                    content := some (analyzeDirectory dirPath (ignoresMatch defaultIgnorePatterns)
                      ai hasGit gitLog entries).2.1 }] ∧
    keptChild (ignoresMatch defaultIgnorePatterns) "claude.md" = true ∧
    (analyzeDirectory dirPath (ignoresMatch defaultIgnorePatterns)
        ai hasGit gitLog entries).2.2.length = entries.length + 1 ∧
    dirFileAnalyses dirPath (ignoresMatch defaultIgnorePatterns) ai
        (analyzeDirectory dirPath (ignoresMatch defaultIgnorePatterns)
          ai hasGit gitLog entries).2.2 =
      dirFileAnalyses dirPath (ignoresMatch defaultIgnorePatterns) ai entries ++
        [analyzeOneFile dirPath ai
          { name := "claude.md", isFile := true,
            content := some (analyzeDirectory dirPath (ignoresMatch defaultIgnorePatterns)
                        ai hasGit gitLog entries).2.1 }] ∧
    getDirectoryPurpose dirPath
        ((analyzeDirectory dirPath (ignoresMatch defaultIgnorePatterns)
          ai hasGit gitLog entries).2.2.map (·.name)) =
      getDirectoryPurpose dirPath (entries.map (·.name) ++ ["claude.md"]) := by
  have hframe : (analyzeDirectory dirPath (ignoresMatch defaultIgnorePatterns)
      ai hasGit gitLog entries).2.2 =
      entries ++ [{ name := "claude.md", isFile := true,
                    content := some (analyzeDirectory dirPath (ignoresMatch defaultIgnorePatterns)
                      ai hasGit gitLog entries).2.1 }] :=
    writeEntry_of_absent h
  refine ⟨hframe, by decide, ?_, ?_, ?_⟩
  · simp [hframe]
  · rw [hframe, dirFileAnalyses, dirFileAnalyses]
    have hkept : keptChild (ignoresMatch defaultIgnorePatterns) "claude.md" = true := by decide
    simp [List.filter_append, List.map_append, hkept]
  · simp [hframe]

/-- C10 witness: analyzing the sample one-file directory appends exactly a
claude.md child holding the rendered document. -/
theorem claudemd_frame_witness :
    (∀ e ∈ sampleEntries, e.name ≠ "claude.md") ∧
    sampleRun1.2.2 = sampleEntries ++
      [{ name := "claude.md", isFile := true, content := some sampleRun1.2.1 }] :=
  ⟨by decide,
    (claudemd_frame_and_participation "proj/stuff" none (fun _ => false) (fun _ => [])
      sampleEntries (by decide)).1⟩

end CodeContext
